import Mathlib

/-!
Shallow embedding of the RSS news aggregator (`src/app.py`) and proofs of the
specification claims about its ingestion pipeline and read-side queries.

Python strings are modelled as `List Char` (`Str`), so slicing (`take`),
length and `startswith` (`isPrefixOf`) agree with Python's code-point
semantics.  External library calls (dateutil's date parsing, BeautifulSoup's
`get_text` and `<img>` scanning, newspaper's text extraction, `urlparse`) are
modelled as oracle functions in an environment record `Env`; every use in the
embedded code passes through these oracles exactly where the Python code calls
the library.  Database sessions are modelled by explicit lists of committed
rows plus staged rows; exceptions are modelled by `Option`/flags at the spots
where the Python code can raise.
-/

namespace RssLent

/-- Python strings as lists of characters. -/
abbrev Str := List Char

/-- A naive `datetime` (no timezone info): year, month, day, hour, minute,
second. -/
structure Naive where
  year : Nat
  month : Nat
  day : Nat
  hour : Nat
  minute : Nat
  second : Nat
deriving DecidableEq

/-- A possibly timezone-aware `datetime` as returned by
`dateutil.parser.parse`: wall-clock fields plus an optional UTC offset.
`replace(tzinfo=None)` keeps the wall-clock fields and drops the offset. -/
structure Aware where
  naive : Naive
  tzoffset : Option Int
deriving DecidableEq

/-- The first six components of a `time.struct_time` (feedparser's
`published_parsed` value): year, month, day, hour, minute, second. -/
structure DateTuple where
  year : Nat
  month : Nat
  day : Nat
  hour : Nat
  minute : Nat
  second : Nat
deriving DecidableEq

/-- Gregorian leap-year rule, as used by `datetime`. -/
def isLeap (y : Nat) : Bool := (y % 4 == 0 && y % 100 != 0) || y % 400 == 0

/-- Days in a month of a given year, as used by `datetime`. -/
def daysInMonth (y m : Nat) : Nat :=
  if m == 2 then (if isLeap y then 29 else 28)
  else if m == 4 || m == 6 || m == 9 || m == 11 then 30
  else 31

/-- `datetime(*t[:6])`: succeeds exactly when the fields are in range
(Python raises `ValueError` otherwise; the caller catches it). -/
def mkDatetime (t : DateTuple) : Option Naive :=
  if 1 ≤ t.year ∧ t.year ≤ 9999 ∧ 1 ≤ t.month ∧ t.month ≤ 12 ∧
      1 ≤ t.day ∧ t.day ≤ daysInMonth t.year t.month ∧
      t.hour ≤ 23 ∧ t.minute ≤ 59 ∧ t.second ≤ 59 then
    some ⟨t.year, t.month, t.day, t.hour, t.minute, t.second⟩
  else none

/-- Order-preserving encoding of a (valid) naive datetime: `datetime`
comparison is lexicographic on the fields, which for in-range fields agrees
with this mixed-radix key. -/
def Naive.key (d : Naive) : Nat :=
  ((((d.year * 13 + d.month) * 32 + d.day) * 24 + d.hour) * 60 + d.minute) * 60 + d.second

/-- `a <= b` on naive datetimes. -/
def Naive.le (a b : Naive) : Bool := decide (a.key ≤ b.key)

/-- `d - timedelta(days=7)`: exact for valid dates, since 7 is smaller than
every month length a single borrow from the previous month suffices. -/
def subDays7 (d : Naive) : Naive :=
  if 7 < d.day then { d with day := d.day - 7 }
  else
    let m := if d.month == 1 then 12 else d.month - 1
    let y := if d.month == 1 then d.year - 1 else d.year
    { d with year := y, month := m, day := d.day + daysInMonth y m - 7 }

/-- One item of feedparser's `media_content` list: its `url` and its
`get('type', '')` value (`none` models an absent `type` key). -/
structure MediaItem where
  url : Str
  type : Option Str
deriving DecidableEq

/-- One item of feedparser's `enclosures` list: `href` plus an optional
`type` attribute (`hasattr(enclosure, 'type')`). -/
structure Enclosure where
  href : Str
  type : Option Str
deriving DecidableEq

/-- A raw feedparser entry.  Each potentially-absent attribute is an
`Option` (`none` models `hasattr(entry, f) == False`, and for
`published_parsed` also the falsy `None` value); the list-valued attributes
model absence as the empty list, matching the code's
`hasattr(entry, f) and entry.f` truthiness guards. -/
structure Entry where
  title : Option Str
  link : Option Str
  summary : Option Str
  description : Option Str
  published : Option Str
  published_parsed : Option DateTuple
  media_content : List MediaItem
  media_thumbnail : List MediaItem
  enclosures : List Enclosure
  content : List Str
  id : Option Str
deriving DecidableEq

/-- A `Source` row: id, name, site url, feed url, category, active flag. -/
structure Source where
  id : Nat
  name : Str
  url : Str
  rss_url : Str
  category_id : Nat
  is_active : Bool
deriving DecidableEq

/-- The environment of external-library oracles and configuration consumed by
the pipeline.

* `dateParse s`: result of `dateutil.parser.parse(s)`; `none` models a raised
  parse exception.
* `getText s`: `BeautifulSoup(s, 'html.parser').get_text()`.
* `imgSrcs s`: the `src` attributes (possibly absent) of
  `BeautifulSoup(s, 'html.parser').find_all('img')`, in document order.
* `extract url`: `newspaper.Article(url)` download+parse text; `none` models
  a raised exception.
* `urlparse u`: `(scheme, netloc)` of `urllib.parse.urlparse(u)`.
* `now`: `datetime.now(timezone.utc).replace(tzinfo=None)` for the cycle.
* `maxArticles`: `MAX_ARTICLES_PER_SOURCE` (default 50). -/
structure Env where
  maxArticles : Nat
  now : Naive
  dateParse : Str → Option Aware
  getText : Str → Str
  imgSrcs : Str → List (Option Str)
  extract : Str → Option Str
  urlparse : Str → Str × Str

def strSuccess : Str := "success".toList

def strError : Str := "error".toList

/-- The fixed placeholder used when a feed entry has no title. -/
def titlePlaceholder : Str := "Без заголовка".toList

/-- The ellipsis marker appended to truncated descriptions. -/
def ellipsisMark : Str := "...".toList

/-- The per-source success log message
`"Успешно обработано {total} статей, {new} новых"`. -/
def successMsg (total newCount : Nat) : Str :=
  "Успешно обработано ".toList ++ (toString total).toList ++
    " статей, ".toList ++ (toString newCount).toList ++ " новых".toList

/-- The per-source error log message `"Ошибка: {e}"`. -/
def errorLogMsg (t : Str) : Str := "Ошибка: ".toList ++ t

/-- Title resolution: `entry.title[:500] if hasattr(entry, 'title') else
'Без заголовка'`. -/
def resolveTitle (e : Entry) : Str :=
  match e.title with
  | some t => t.take 500
  | none => titlePlaceholder

/-- The raw description source: `entry.summary` if present, else
`entry.description` if present, else the empty string. -/
def rawDescription (e : Entry) : Str :=
  match e.summary with
  | some s => s
  | none =>
    match e.description with
    | some d => d
    | none => []

/-- Description normalization: when the raw description is truthy, strip the
markup (`get_text`) and truncate to 1000 characters plus `'...'` when
longer. -/
def resolveDescription (env : Env) (e : Entry) : Str :=
  let raw := rawDescription e
  if raw = [] then []
  else
    let text := env.getText raw
    if 1000 < text.length then text.take 1000 ++ ellipsisMark else text

/-- Published-date resolution: the default is `now`; if `published_parsed` is
present and truthy, try `datetime(*t[:6])` (keeping the default on failure);
otherwise if `published` is present, try `dateutil` parsing with the timezone
offset dropped (keeping the default on failure). -/
def resolvePublished (env : Env) (e : Entry) : Naive :=
  match e.published_parsed with
  | some t =>
    match mkDatetime t with
    | some d => d
    | none => env.now
  | none =>
    match e.published with
    | some s =>
      match env.dateParse s with
      | some aw => aw.naive
      | none => env.now
    | none => env.now

/-- Python truthiness of the `image_url` variable: falsy when `None` or the
empty string. -/
def falsyStr : Option Str → Bool
  | none => true
  | some u => u.isEmpty

def mimeImage : Str := "image/".toList

def litHttp : Str := "http".toList

def litProtoRel : Str := "//".toList

def litRootRel : Str := "/".toList

/-- `media.get('type', '').startswith('image/')`. -/
def mediaIsImage (m : MediaItem) : Bool := mimeImage.isPrefixOf (m.type.getD [])

/-- `hasattr(enclosure, 'type') and enclosure.type.startswith('image/')`. -/
def enclosureIsImage (en : Enclosure) : Bool :=
  match en.type with
  | some t => mimeImage.isPrefixOf t
  | none => false

/-- The `if/elif` chain over `media_content`, `media_thumbnail` and
`enclosures`: in a non-empty `media_content` list take the url of the first
image-typed item, falling back (when that url is falsy or no item matched) to
the first item's url; else the first thumbnail's url; else the href of the
first image-typed enclosure, if any. -/
def imageAfterElif (e : Entry) : Option Str :=
  match e.media_content with
  | m0 :: rest =>
    let found := ((m0 :: rest).find? mediaIsImage).map (fun m => m.url)
    if falsyStr found then some m0.url else found
  | [] =>
    match e.media_thumbnail with
    | t0 :: _ => some t0.url
    | [] =>
      match e.enclosures.find? enclosureIsImage with
      | some en => some en.href
      | none => none

/-- The markup searched for `<img>` tags: `entry.content[0].value` when the
`content` list is present and truthy, else `entry.summary` when present, else
the empty string. -/
def scanTarget (e : Entry) : Str :=
  match e.content with
  | c0 :: _ => c0
  | [] =>
    match e.summary with
    | some s => s
    | none => []

/-- `src and (src.startswith('http') or src.startswith('/'))`. -/
def acceptableSrc (s : Str) : Bool := litHttp.isPrefixOf s || litRootRel.isPrefixOf s

/-- Scan the entry's content/summary markup for the first `<img>` whose `src`
is acceptable; `none` when the markup is falsy or no tag matches. -/
def scanImage (env : Env) (e : Entry) : Option Str :=
  let target := scanTarget e
  if target = [] then none
  else
    (env.imgSrcs target).findSome? (fun s? =>
      match s? with
      | some s => if acceptableSrc s then some s else none
      | none => none)

/-- The `if not image_url:` scan step: when the current value is falsy, a
successful scan replaces it and a failed scan keeps it. -/
def imageScanStep (env : Env) (e : Entry) (i : Option Str) : Option Str :=
  if falsyStr i then
    match scanImage env e with
    | some s => some s
    | none => i
  else i

/-- Post-resolution normalization: when the value is truthy and does not
start with `http`, a `//`-prefixed url gets `https:` prepended and a
`/`-prefixed url gets the source site's scheme and netloc prepended. -/
def normalizeImageUrl (env : Env) (src : Source) : Option Str → Option Str
  | none => none
  | some u =>
    if !u.isEmpty && !(litHttp.isPrefixOf u) then
      if litProtoRel.isPrefixOf u then some ("https:".toList ++ u)
      else if litRootRel.isPrefixOf u then
        some ((env.urlparse src.url).1 ++ "://".toList ++ (env.urlparse src.url).2 ++ u)
      else some u
    else some u

/-- Full image-URL resolution for one entry, as in the code: the `elif`
chain, then the markup scan, then normalization. -/
def resolveImage (env : Env) (src : Source) (e : Entry) : Option Str :=
  normalizeImageUrl env src (imageScanStep env e (imageAfterElif e))

/-- `entry.get('id', entry.get('link', ''))`. -/
def guidOf (e : Entry) : Str :=
  match e.id with
  | some g => g
  | none =>
    match e.link with
    | some l => l
    | none => []

/-- The `article_data` dictionary built for one feed entry. -/
structure ArticleData where
  title : Str
  description : Str
  link : Str
  published_at : Naive
  guid : Str
  source_id : Nat
  category_id : Nat
  image_url : Option Str
deriving DecidableEq

/-- Normalization of one raw entry into an `article_data` record.  Accessing
`entry.link` on an entry without a link raises `AttributeError`, modelled by
`none`; all other field accesses are guarded or wrapped in `try/except` in the
code and cannot raise. -/
def normalizeEntry (env : Env) (src : Source) (e : Entry) : Option ArticleData :=
  match e.link with
  | none => none
  | some l =>
    some
      { title := resolveTitle e
        description := resolveDescription env e
        link := l
        published_at := resolvePublished env e
        guid := guidOf e
        source_id := src.id
        category_id := src.category_id
        image_url := resolveImage env src e }

/-- The entry loop of `fetch_rss_feed`: entries are normalized in order and
an exception at any entry (a missing link) aborts the whole loop, discarding
the partial list (`none`). -/
def normalizeAll (env : Env) (src : Source) : List Entry → Option (List ArticleData)
  | [] => some []
  | e :: es =>
    match normalizeEntry env src e with
    | none => none
    | some d => (normalizeAll env src es).map (fun ds => d :: ds)

/-- Outcome of retrieving and parsing one source's feed document: either a
parsed list of raw entries, or a raised exception (network failure, timeout,
or anything else thrown inside the function body). -/
inductive FetchResult where
  | ok (entries : List Entry)
  | raise
deriving DecidableEq

/-- `fetch_rss_feed(source)`: the whole body is wrapped in `try/except`, so a
raised fetch exception — and equally an exception thrown while normalizing
any entry of the first `maxArticles` entries — yields the empty list. -/
def fetch_rss_feed (env : Env) (src : Source) (fr : FetchResult) : List ArticleData :=
  match fr with
  | .raise => []
  | .ok entries =>
    match normalizeAll env src (entries.take env.maxArticles) with
    | some l => l
    | none => []

/-- `extract_article_content(url)`: the extracted page text truncated to 5000
characters, or `None` when download/parse raised. -/
def extract_article_content (env : Env) (url : Str) : Option Str :=
  match env.extract url with
  | some text => some (text.take 5000)
  | none => none

/-- The enrichment value actually stored: `article_data['content']` is set
only when `extract_article_content` returned a truthy string. -/
def enrich (env : Env) (url : Str) : Option Str :=
  match extract_article_content env url with
  | some text => if text = [] then none else some text
  | none => none

/-- An `Article` row. -/
structure Article where
  title : Str
  description : Str
  content : Option Str
  link : Str
  image_url : Option Str
  published_at : Naive
  category_id : Nat
  source_id : Nat
  is_active : Bool
  view_count : Nat
  guid : Str
deriving DecidableEq

/-- `Article(**article_data)` with column defaults `is_active=True`,
`view_count=0`. -/
def mkArticle (d : ArticleData) (content : Option Str) : Article :=
  { title := d.title
    description := d.description
    content := content
    link := d.link
    image_url := d.image_url
    published_at := d.published_at
    category_id := d.category_id
    source_id := d.source_id
    is_active := true
    view_count := 0
    guid := d.guid }

/-- An `UpdateLog` row. -/
structure UpdateLog where
  source_id : Nat
  status : Str
  message : Str
  articles_count : Nat
deriving DecidableEq

/-- The committed database state. -/
structure DB where
  articles : List Article
  logs : List UpdateLog
deriving DecidableEq

/-- The per-source inputs of one cycle: the source row, the outcome of its
feed fetch, and the point at which unexpected database-level processing
failure strikes (`procFailAt = some k` models an exception raised at the
existence query of the k-th `article_data`, 0-based; `none` models no such
failure). `errText` is the text of that exception. -/
structure SourceRun where
  source : Source
  fetch : FetchResult
  procFailAt : Option Nat
  errText : Str
deriving DecidableEq

/-- The inputs of one ingestion cycle: all source rows in query order with
their per-source inputs, and whether the final `commit()` succeeds. -/
structure Cycle where
  runs : List SourceRun
  commitOk : Bool
deriving DecidableEq

def decStop : Option Nat → Option Nat
  | some (k + 1) => some k
  | o => o

/-- `Article.query.filter_by(link=l).first()` is truthy: the session's view
(committed rows plus autoflushed staged rows) contains the link. -/
def linkExists (arts : List Article) (l : Str) : Bool := arts.any (fun a => a.link == l)

/-- The per-source `for article_data in articles_data:` loop over the staged
session state: entries whose link already exists are skipped; fresh entries
are enriched (best effort) and staged; an unexpected failure at the existence
query of entry `stop` aborts the loop (returning `false`) with the previously
staged articles still staged. Returns the staged list, the source's
`new_articles_count`, and whether the loop completed. -/
def stageLoop (env : Env) (committed : List Article) :
    List ArticleData → Option Nat → List Article → Nat → List Article × Nat × Bool
  | [], _, staged, n => (staged, n, true)
  | d :: ds, stop, staged, n =>
    if stop = some 0 then (staged, n, false)
    else if linkExists (committed ++ staged) d.link then
      stageLoop env committed ds (decStop stop) staged n
    else
      stageLoop env committed ds (decStop stop)
        (staged ++ [mkArticle d (enrich env d.link)]) (n + 1)

/-- One iteration of the source loop of `update_news`: fetch, stage new
articles, and build this source's `UpdateLog` row — the success row with the
processed/new counts when the body completed, the error row with count 0 when
it raised. Returns the new staged list, the log row, and the contribution to
`total_new_articles`. -/
def processSource (env : Env) (committed : List Article) (staged : List Article)
    (run : SourceRun) : List Article × UpdateLog × Nat :=
  let datas := fetch_rss_feed env run.source run.fetch
  let r := stageLoop env committed datas run.procFailAt staged 0
  if r.2.2 then
    (r.1, ⟨run.source.id, strSuccess, successMsg datas.length r.2.1, r.2.1⟩, r.2.1)
  else
    (r.1, ⟨run.source.id, strError, errorLogMsg run.errText, 0⟩, 0)

/-- The source loop of `update_news` over the active sources: returns the
staged articles, the staged `UpdateLog` rows in order, and
`total_new_articles`. -/
def runActive (env : Env) (committed : List Article) :
    List SourceRun → List Article → List Article × List UpdateLog × Nat
  | [], staged => (staged, [], 0)
  | r :: rs, staged =>
    let p := processSource env committed staged r
    let rest := runActive env committed rs p.1
    (rest.1, p.2.1 :: rest.2.1, p.2.2 + rest.2.2)

/-- `Source.query.filter_by(is_active=True).all()`. -/
def activeRuns (cyc : Cycle) : List SourceRun := cyc.runs.filter (fun r => r.source.is_active)

/-- The whole session built by one `update_news` cycle, before the final
commit: staged articles, staged log rows, and `total_new_articles`. -/
def runCycle (env : Env) (db : DB) (cyc : Cycle) : List Article × List UpdateLog × Nat :=
  runActive env db.articles (activeRuns cyc) []

/-- `update_news()`: run the cycle, then `db.session.commit()` — appending
every staged row to the database — or, when the commit raises,
`db.session.rollback()`, discarding the whole session.  Also returns
`total_new_articles` (used only for logging). -/
def update_news (env : Env) (db : DB) (cyc : Cycle) : DB × Nat :=
  let r := runCycle env db cyc
  if cyc.commitOk then
    ({ articles := db.articles ++ r.1, logs := db.logs ++ r.2.1 }, r.2.2)
  else (db, r.2.2)

def linksOf (l : List Article) : List Str := l.map (fun a => a.link)

/-- The `article_data` records whose existence query is actually executed
before the per-source failure point (all of them when no failure occurs). -/
def reachedDatas (ds : List ArticleData) : Option Nat → List ArticleData
  | some k => ds.take k
  | none => ds

/-- `paginate(page=page, per_page=per, error_out=False)` item selection. -/
def paginate {α : Type} (page per : Nat) (l : List α) : List α :=
  (l.drop ((page - 1) * per)).take per

/-- `order_by(Article.published_at.desc())`. -/
def publishedDesc (a b : Article) : Bool := Naive.le b.published_at a.published_at

/-- Insert into a descending-sorted list, keeping it sorted. -/
def insertDesc (a : Article) : List Article → List Article
  | [] => [a]
  | b :: bs => if publishedDesc a b then a :: b :: bs else b :: insertDesc a bs

/-- Sorting by published timestamp, newest first. -/
def sortByPublishedDesc (l : List Article) : List Article := l.foldr insertDesc []

/-- The `/` route's article listing: active articles of the last 7 days,
optionally filtered by source, newest first, page of 20. -/
def index_articles (db : DB) (now : Naive) (page : Nat) (srcFilter : Option Nat) :
    List Article :=
  let q := (db.articles.filter (fun a => a.is_active)).filter
    (fun a => Naive.le (subDays7 now) a.published_at)
  let q2 :=
    match srcFilter with
    | some s => q.filter (fun a => a.source_id == s)
    | none => q
  paginate page 20 (sortByPublishedDesc q2)

/-- The `/category/<name>` route's article listing. -/
def category_articles (db : DB) (now : Naive) (catId : Nat) (page : Nat)
    (srcFilter : Option Nat) : List Article :=
  let q := (db.articles.filter (fun a => a.category_id == catId && a.is_active)).filter
    (fun a => Naive.le (subDays7 now) a.published_at)
  let q2 :=
    match srcFilter with
    | some s => q.filter (fun a => a.source_id == s)
    | none => q
  paginate page 20 (sortByPublishedDesc q2)

/-- The `/api/news` endpoint's article list (`per_page` capped at 100). -/
def api_news_articles (db : DB) (now : Naive) (page per_page : Nat) : List Article :=
  let q := (db.articles.filter (fun a => a.is_active)).filter
    (fun a => Naive.le (subDays7 now) a.published_at)
  paginate page (min per_page 100) (sortByPublishedDesc q)

/-- The `/api/news/<category>` endpoint's article list. -/
def api_category_articles (db : DB) (now : Naive) (catId : Nat) (page per_page : Nat) :
    List Article :=
  let q := (db.articles.filter (fun a => a.category_id == catId && a.is_active)).filter
    (fun a => Naive.le (subDays7 now) a.published_at)
  paginate page (min per_page 100) (sortByPublishedDesc q)

/-- `/api/stats` total article count. -/
def api_stats_total (db : DB) (now : Naive) : Nat :=
  ((db.articles.filter (fun a => a.is_active)).filter
    (fun a => Naive.le (subDays7 now) a.published_at)).length

/-- `/api/stats` per-category article count. -/
def api_stats_category_count (db : DB) (now : Naive) (catId : Nat) : Nat :=
  ((db.articles.filter (fun a => a.category_id == catId && a.is_active)).filter
    (fun a => Naive.le (subDays7 now) a.published_at)).length

/-- Claim-side normalization, written from the spec's words: a
protocol-relative `//host/...` url becomes `https://host/...`, a
root-relative `/path` url is prefixed with the source's own scheme and host,
anything else is unchanged. -/
def claimNormalize (env : Env) (src : Source) (u : Str) : Str :=
  if litProtoRel.isPrefixOf u then "https:".toList ++ u
  else if litRootRel.isPrefixOf u then
    (env.urlparse src.url).1 ++ "://".toList ++ (env.urlparse src.url).2 ++ u
  else u

/-- Claim-side image chain, written from the spec's words, first match wins:
(a) the media-content list, preferring an item whose declared MIME type
starts with `image/`, else its first item; (b) the media-thumbnail field;
(c) the first enclosure whose type starts with `image/`; (d) the first
`<img>` in the content/summary markup with an acceptable `src`. -/
def rawImageClaim (env : Env) (e : Entry) : Option Str :=
  match e.media_content with
  | m0 :: rest =>
    some
      (match (m0 :: rest).find? mediaIsImage with
       | some m => m.url
       | none => m0.url)
  | [] =>
    match e.media_thumbnail with
    | t0 :: _ => some t0.url
    | [] =>
      match e.enclosures.find? enclosureIsImage with
      | some en => some en.href
      | none => scanImage env e

/-- Claim-side image resolution: the priority chain followed by
post-resolution url normalization. -/
def imageClaimChain (env : Env) (src : Source) (e : Entry) : Option Str :=
  (rawImageClaim env e).map (claimNormalize env src)

/-- Every structured image url carried by the entry is a non-empty string
(the claim speaks about URLs; the empty string is not one, and Python's
truthiness tests treat it like an absent value). -/
def goodUrls (e : Entry) : Prop :=
  (∀ m ∈ e.media_content, m.url ≠ []) ∧
  (∀ t ∈ e.media_thumbnail, t.url ≠ []) ∧
  (∀ en ∈ e.enclosures, en.href ≠ [])

instance (e : Entry) : Decidable (goodUrls e) := by
  unfold goodUrls
  infer_instance

/-! Concrete sample inputs used to evaluate the embedded pipeline on closed
instances. -/

/-- A sample environment: no date parsing, identity tag stripping, no `<img>`
tags, no page extraction. -/
def envW : Env where
  maxArticles := 50
  now := ⟨2026, 10, 12, 0, 0, 0⟩
  dateParse := fun _ => none
  getText := fun s => s
  imgSrcs := fun _ => []
  extract := fun _ => none
  urlparse := fun _ => ("https".toList, "news.example.com".toList)

/-- A sample environment whose page extraction succeeds with a short text. -/
def envE : Env where
  maxArticles := 50
  now := ⟨2026, 10, 12, 0, 0, 0⟩
  dateParse := fun _ => none
  getText := fun s => s
  imgSrcs := fun _ => []
  extract := fun _ => some ("body text".toList)
  urlparse := fun _ => ("https".toList, "news.example.com".toList)

def srcW : Source :=
  ⟨1, "SrcA".toList, "https://news.example.com/".toList,
    "https://news.example.com/rss".toList, 3, true⟩

/-- An inactive source. -/
def srcB : Source :=
  ⟨2, "SrcB".toList, "https://b.example.com/".toList,
    "https://b.example.com/rss".toList, 3, false⟩

/-- A second active source. -/
def srcC : Source :=
  ⟨2, "SrcC".toList, "https://c.example.com/".toList,
    "https://c.example.com/rss".toList, 3, true⟩

def entryW : Entry where
  title := some ("Hello".toList)
  link := some ("https://news.example.com/a1".toList)
  summary := some ("Summary".toList)
  description := none
  published := none
  published_parsed := some ⟨2026, 10, 10, 12, 0, 0⟩
  media_content := []
  media_thumbnail := []
  enclosures := []
  content := []
  id := none

def entryW2 : Entry :=
  { entryW with
    title := some ("Hello2".toList)
    link := some ("https://news.example.com/a2".toList) }

/-- An entry with no link attribute. -/
def entryNoLink : Entry :=
  { entryW with title := some ("NoLink".toList), link := none }

/-- An entry with an over-long title and an over-long description. -/
def entryLong : Entry :=
  { entryW with
    title := some (List.replicate 600 'a')
    summary := some (List.replicate 1200 'b') }

/-- An entry carrying a protocol-relative media-content image url. -/
def entryImg : Entry :=
  { entryW with
    link := some ("https://news.example.com/a3".toList)
    media_content := [⟨"//cdn.example.com/a.jpg".toList, some ("image/jpeg".toList)⟩] }

def dataW : ArticleData :=
  ⟨"Hello".toList, [], "https://news.example.com/a1".toList,
    ⟨2026, 10, 10, 12, 0, 0⟩, "g".toList, 1, 3, none⟩

def artW : Article := mkArticle dataW none

def dbW : DB := ⟨[], []⟩

def dbA : DB := ⟨[artW], []⟩

def runW : SourceRun := ⟨srcW, .ok [entryW], none, []⟩

def runB : SourceRun := ⟨srcB, .ok [entryW2], none, []⟩

def runC : SourceRun := ⟨srcC, .ok [entryW2], none, []⟩

/-- A run whose feed fetch raises. -/
def runFail : SourceRun := ⟨srcW, .raise, none, []⟩

def cycW : Cycle := ⟨[runW], true⟩

/-- A cycle with one active and one inactive source. -/
def cycAB : Cycle := ⟨[runW, runB], true⟩

/-- A cycle whose first source's fetch raises, followed by a healthy source. -/
def cycFail : Cycle := ⟨[runFail, runC], true⟩

/-! ### Helper lemmas -/

theorem isEmpty_false_of_ne {l : Str} (h : l ≠ []) : l.isEmpty = false := by
  cases l with
  | nil => exact absurd rfl h
  | cons a as => rfl

theorem normalizeEntry_some {env : Env} {src : Source} {e : Entry} {d : ArticleData}
    (h : normalizeEntry env src e = some d) :
    ∃ l, e.link = some l ∧
      d = { title := resolveTitle e
            description := resolveDescription env e
            link := l
            published_at := resolvePublished env e
            guid := guidOf e
            source_id := src.id
            category_id := src.category_id
            image_url := resolveImage env src e } := by
  cases hl : e.link with
  | none => rw [normalizeEntry, hl] at h; cases h
  | some l =>
    rw [normalizeEntry, hl] at h
    exact ⟨l, rfl, (Option.some.injEq _ _ ▸ h).symm⟩

/-! ### C5: per-cycle atomic persistence -/

/-- C5: a cycle's persistence is atomic.  When the final commit succeeds, the
database gains exactly the cycle's staged articles and staged UpdateLog rows,
appended at the single commit point; when the commit fails, the single
rollback leaves the database exactly as it was — no staged write of the cycle
is partially persisted. -/
theorem cycle_commit_atomic (env : Env) (db : DB) (cyc : Cycle) :
    (cyc.commitOk = true →
      (update_news env db cyc).1.articles = db.articles ++ (runCycle env db cyc).1 ∧
      (update_news env db cyc).1.logs = db.logs ++ (runCycle env db cyc).2.1) ∧
    (cyc.commitOk = false → (update_news env db cyc).1 = db) := by
  constructor
  · intro h
    simp [update_news, h]
  · intro h
    simp [update_news, h]

/-- Witness for C5 at a concrete cycle with a successful commit. -/
theorem cycle_commit_atomic_witness :
    (update_news envW dbW cycW).1.articles = dbW.articles ++ (runCycle envW dbW cycW).1 ∧
    (update_news envW dbW cycW).1.logs = dbW.logs ++ (runCycle envW dbW cycW).2.1 :=
  (cycle_commit_atomic envW dbW cycW).1 rfl

/-! ### C7: title and description truncation -/

/-- C7: the normalized title is the feed title truncated to exactly 500
characters when longer (unchanged when not, and a fixed placeholder when the
title attribute is absent), and the normalized description is the
tag-stripped text truncated to exactly 1000 characters plus the trailing
ellipsis marker when longer than 1000 (unchanged otherwise); these are the
values carried by the normalized article record. -/
theorem title_description_truncation (env : Env) (src : Source) (e : Entry) :
    (∀ d, normalizeEntry env src e = some d →
      d.title = resolveTitle e ∧ d.description = resolveDescription env e) ∧
    (∀ t, e.title = some t → 500 < t.length →
      resolveTitle e = t.take 500 ∧ (resolveTitle e).length = 500) ∧
    (∀ t, e.title = some t → t.length ≤ 500 → resolveTitle e = t) ∧
    (e.title = none → resolveTitle e = titlePlaceholder) ∧
    (rawDescription e ≠ [] → 1000 < (env.getText (rawDescription e)).length →
      resolveDescription env e = (env.getText (rawDescription e)).take 1000 ++ ellipsisMark ∧
      ((env.getText (rawDescription e)).take 1000).length = 1000) ∧
    (rawDescription e ≠ [] → (env.getText (rawDescription e)).length ≤ 1000 →
      resolveDescription env e = env.getText (rawDescription e)) := by
  refine ⟨?_, ?_, ?_, ?_, ?_, ?_⟩
  · intro d hd
    obtain ⟨l, -, hdef⟩ := normalizeEntry_some hd
    subst hdef
    exact ⟨rfl, rfl⟩
  · intro t ht hlen
    rw [resolveTitle, ht]
    refine ⟨rfl, ?_⟩
    simp [List.length_take]
    omega
  · intro t ht hlen
    rw [resolveTitle, ht]
    exact List.take_of_length_le hlen
  · intro ht
    rw [resolveTitle, ht]
  · intro hraw hlen
    simp only [resolveDescription]
    rw [if_neg hraw, if_pos hlen]
    refine ⟨rfl, ?_⟩
    simp [List.length_take]
    omega
  · intro hraw hlen
    simp only [resolveDescription]
    rw [if_neg hraw, if_neg (by omega : ¬ 1000 < (env.getText (rawDescription e)).length)]

/-- Witness for C7: an entry with a 600-character title and a 1200-character
description is truncated to exactly 500 and 1000 + ellipsis characters. -/
theorem title_description_truncation_witness :
    (resolveTitle entryLong = (List.replicate 600 'a').take 500 ∧
      (resolveTitle entryLong).length = 500) ∧
    resolveDescription envW entryLong =
      (envW.getText (rawDescription entryLong)).take 1000 ++ ellipsisMark :=
  ⟨(title_description_truncation envW srcW entryLong).2.1 _ rfl
      (by rw [List.length_replicate]; omega),
   ((title_description_truncation envW srcW entryLong).2.2.2.2.1
      (by rw [show rawDescription entryLong = List.replicate 1200 'b' from rfl]
          intro h
          have h2 := congrArg List.length h
          rw [List.length_replicate, List.length_nil] at h2
          exact absurd h2 (by omega))
      (by rw [show envW.getText (rawDescription entryLong) = List.replicate 1200 'b' from rfl,
              List.length_replicate]
          omega)).1⟩

/-! ### C8: best-effort content enrichment -/

/-- C8: for a candidate article whose link is not in the session's view, the
loop stages the article with content `enrich env link` and always continues
with the remaining entries; a failed extraction (`none`) or an empty
extraction yields no content (the article is still staged, without body
text), and a successful extraction is truncated to at most 5000 characters. -/
theorem enrichment_best_effort (env : Env) (committed : List Article)
    (d : ArticleData) (ds : List ArticleData) (stop : Option Nat)
    (staged : List Article) (n : Nat)
    (hstop : stop ≠ some 0)
    (hfresh : linkExists (committed ++ staged) d.link = false) :
    stageLoop env committed (d :: ds) stop staged n =
      stageLoop env committed ds (decStop stop)
        (staged ++ [mkArticle d (enrich env d.link)]) (n + 1) ∧
    (env.extract d.link = none → enrich env d.link = none) ∧
    (env.extract d.link = some [] → enrich env d.link = none) ∧
    (∀ text, env.extract d.link = some text → text ≠ [] →
      enrich env d.link = some (text.take 5000) ∧ (text.take 5000).length ≤ 5000) := by
  refine ⟨?_, ?_, ?_, ?_⟩
  · rw [stageLoop]
    rw [if_neg hstop, if_neg (by simp [hfresh])]
  · intro h
    simp [enrich, extract_article_content, h]
  · intro h
    simp [enrich, extract_article_content, h]
  · intro text hx hne
    have htake : text.take 5000 ≠ [] := by
      simp [List.take_eq_nil_iff]
      exact hne
    refine ⟨?_, ?_⟩
    · simp [enrich, extract_article_content, hx, htake]
    · simp [List.length_take]

/-- Witness for C8: a fresh link with a successful short extraction is stored
with the (vacuously) truncated text, and with a failing extraction the
enrichment is empty. -/
theorem enrichment_best_effort_witness :
    enrich envE dataW.link = some (("body text".toList).take 5000) ∧
    enrich envW dataW.link = none :=
  ⟨((enrichment_best_effort envE [] dataW [] none [] 0 (by decide) (by decide)).2.2.2
      _ rfl (by decide)).1,
   (enrichment_best_effort envW [] dataW [] none [] 0 (by decide) (by decide)).2.1 rfl⟩

/-! ### C9: published-timestamp resolution -/

/-- C9: the published timestamp carried by the normalized record is
`resolvePublished`, which prefers the structured parsed-date field converted
to a naive datetime, else (when that field is absent or falsy) parses the
free-form date string with any timezone offset dropped, and falls back to the
current naive-UTC time whenever both are absent or the attempted conversion
raises; no entry is ever rejected for a missing or unparseable date — an
entry with a link always normalizes. -/
theorem published_date_resolution (env : Env) (src : Source) (e : Entry) :
    (∀ d, normalizeEntry env src e = some d → d.published_at = resolvePublished env e) ∧
    (∀ t dt, e.published_parsed = some t → mkDatetime t = some dt →
      resolvePublished env e = dt) ∧
    (∀ t, e.published_parsed = some t → mkDatetime t = none →
      resolvePublished env e = env.now) ∧
    (∀ s aw, e.published_parsed = none → e.published = some s →
      env.dateParse s = some aw → resolvePublished env e = aw.naive) ∧
    (∀ s, e.published_parsed = none → e.published = some s →
      env.dateParse s = none → resolvePublished env e = env.now) ∧
    (e.published_parsed = none → e.published = none → resolvePublished env e = env.now) ∧
    (∀ l, e.link = some l → (normalizeEntry env src e).isSome = true) := by
  refine ⟨?_, ?_, ?_, ?_, ?_, ?_, ?_⟩
  · intro d hd
    obtain ⟨l, -, hdef⟩ := normalizeEntry_some hd
    subst hdef
    rfl
  · intro t dt h1 h2
    simp [resolvePublished, h1, h2]
  · intro t h1 h2
    simp [resolvePublished, h1, h2]
  · intro s aw h1 h2 h3
    simp [resolvePublished, h1, h2, h3]
  · intro s h1 h2 h3
    simp [resolvePublished, h1, h2, h3]
  · intro h1 h2
    simp [resolvePublished, h1, h2]
  · intro l hl
    simp [normalizeEntry, hl]

/-- Witness for C9: the sample entry's structured date converts and is the
stored published timestamp. -/
theorem published_date_resolution_witness :
    resolvePublished envW entryW = ⟨2026, 10, 10, 12, 0, 0⟩ ∧
    (normalizeEntry envW srcW entryW).isSome = true :=
  ⟨(published_date_resolution envW srcW entryW).2.1 _ _ rfl (by decide),
   (published_date_resolution envW srcW entryW).2.2.2.2.2.2 _ rfl⟩

/-! ### C4: an entry lacking a link (corrected) -/

/-- The entry loop returns `none` as soon as any entry lacks a link. -/
theorem normalizeAll_none_of_missing_link (env : Env) (src : Source) :
    ∀ (l : List Entry) (e : Entry), e ∈ l → e.link = none →
      normalizeAll env src l = none := by
  intro l
  induction l with
  | nil => intro e h; cases h
  | cons a as ih =>
    intro e hmem hnone
    rcases List.mem_cons.mp hmem with h | h
    · subst h
      simp [normalizeAll, normalizeEntry, hnone]
    · rw [normalizeAll]
      cases ha : normalizeEntry env src a with
      | none => rfl
      | some d => rw [ih e h hnone]; rfl

/-- C4 counterexample: a feed whose second entry lacks a link.  Contrary to
the claim, the other entries of the source are not normalized and persisted:
`fetch_rss_feed` returns the empty list, so every entry of the source is
dropped. -/
theorem missing_link_drops_whole_source_cex :
    entryNoLink.link = none ∧ entryW.link.isSome = true ∧ entryW2.link.isSome = true ∧
    fetch_rss_feed envW srcW (.ok [entryW, entryNoLink, entryW2]) = [] := by
  refine ⟨rfl, rfl, rfl, ?_⟩
  decide

/-- C4 amended: a feed entry lacking a link field raises at `entry.link`,
which the surrounding `try/except` of `fetch_rss_feed` catches by returning
the empty list — so the entry and every other entry of that source contribute
zero to the processed-article and new-article counts, and the rest of the
source's entries are not persisted (other sources are unaffected, since the
failure is absorbed inside the per-source fetch). -/
theorem missing_link_aborts_source (env : Env) (src : Source) (entries : List Entry)
    (e : Entry) (hmem : e ∈ entries.take env.maxArticles) (hlink : e.link = none) :
    fetch_rss_feed env src (.ok entries) = [] := by
  rw [fetch_rss_feed, normalizeAll_none_of_missing_link env src _ e hmem hlink]

/-- Witness for C4's amended claim at a concrete one-entry feed. -/
theorem missing_link_aborts_source_witness :
    fetch_rss_feed envW srcW (.ok [entryNoLink]) = [] :=
  missing_link_aborts_source envW srcW [entryNoLink] entryNoLink (by decide) rfl

/-! ### UpdateLog structure lemmas (used by C1 and C2) -/

theorem processSource_sourceId (env : Env) (c st : List Article) (run : SourceRun) :
    ((processSource env c st run).2.1).source_id = run.source.id := by
  simp only [processSource]
  split <;> rfl

theorem runActive_logs_map (env : Env) (c : List Article) :
    ∀ (rs : List SourceRun) (st : List Article),
      ((runActive env c rs st).2.1).map (fun lg => lg.source_id) =
        rs.map (fun r => r.source.id) := by
  intro rs
  induction rs with
  | nil => intro st; rfl
  | cons r rs ih =>
    intro st
    simp only [runActive, List.map_cons]
    rw [ih, processSource_sourceId]

theorem runActive_logs_length (env : Env) (c : List Article) (rs : List SourceRun)
    (st : List Article) : ((runActive env c rs st).2.1).length = rs.length := by
  have h := congrArg List.length (runActive_logs_map env c rs st)
  simpa using h

theorem runActive_log_origin (env : Env) (c : List Article) :
    ∀ (rs : List SourceRun) (st : List Article) (lg : UpdateLog),
      lg ∈ (runActive env c rs st).2.1 →
      ∃ r ∈ rs, ∃ st2, lg = (processSource env c st2 r).2.1 := by
  intro rs
  induction rs with
  | nil => intro st lg h; cases h
  | cons r rs ih =>
    intro st lg h
    simp only [runActive] at h
    rcases List.mem_cons.mp h with h | h
    · exact ⟨r, List.mem_cons_self .., st, h⟩
    · obtain ⟨r2, hr2, st2, hst2⟩ := ih _ lg h
      exact ⟨r2, List.mem_cons_of_mem _ hr2, st2, hst2⟩

theorem processSource_fetch_raise (env : Env) (c st : List Article) (run : SourceRun)
    (h : run.fetch = .raise) :
    processSource env c st run = (st, ⟨run.source.id, strSuccess, successMsg 0 0, 0⟩, 0) := by
  obtain ⟨src, fetch, pf, et⟩ := run
  cases h
  cases pf <;> rfl

/-- Shared counting argument: with pairwise-distinct source ids, the staged
log rows of a cycle contain the id of an active source exactly once and the
id of an inactive source not at all. -/
theorem logs_count_of_run (env : Env) (db : DB) (cyc : Cycle)
    (hids : (cyc.runs.map (fun r => r.source.id)).Nodup)
    (run : SourceRun) (hmem : run ∈ cyc.runs) :
    (((runCycle env db cyc).2.1).map (fun lg => lg.source_id)).count run.source.id =
      (if run.source.is_active then 1 else 0) := by
  rw [runCycle, runActive_logs_map]
  have hsub : ((activeRuns cyc).map (fun r => r.source.id)).Sublist
      (cyc.runs.map (fun r => r.source.id)) :=
    (List.filter_sublist _).map _
  have hnd2 : ((activeRuns cyc).map (fun r => r.source.id)).Nodup := hsub.nodup hids
  by_cases hact : run.source.is_active
  · rw [if_pos hact]
    have hmem2 : run ∈ activeRuns cyc :=
      List.mem_filter.mpr ⟨hmem, by simp [hact]⟩
    exact List.count_eq_one_of_mem hnd2 (List.mem_map_of_mem _ hmem2)
  · rw [if_neg hact]
    rw [List.count_eq_zero]
    intro hin
    obtain ⟨r2, hr2, hid⟩ := List.mem_map.mp hin
    have hr2' : r2 ∈ cyc.runs := List.mem_of_mem_filter hr2
    have : r2 = run := List.inj_on_of_nodup_map hids hr2' hmem hid
    subst this
    exact hact (by simpa using (List.mem_filter.mp hr2).2)

/-! ### C1: exactly one UpdateLog row per active source -/

/-- C1: in every ingestion cycle, the staged UpdateLog rows contain exactly
one row for each active source — whether its processing succeeded or failed —
and no row for an inactive source (inactive sources are skipped entirely).
Counting is by source id, assuming the cycle's sources have pairwise-distinct
ids (a database uniqueness invariant). -/
theorem one_updatelog_per_active_source (env : Env) (db : DB) (cyc : Cycle)
    (hids : (cyc.runs.map (fun r => r.source.id)).Nodup)
    (run : SourceRun) (hmem : run ∈ cyc.runs) :
    (((runCycle env db cyc).2.1).map (fun lg => lg.source_id)).count run.source.id =
      (if run.source.is_active then 1 else 0) :=
  logs_count_of_run env db cyc hids run hmem

/-- Witness for C1: a concrete cycle with one active and one inactive
source — one log row for the active source, none for the inactive one. -/
theorem one_updatelog_per_active_source_witness :
    (((runCycle envW dbW cycAB).2.1).map (fun lg => lg.source_id)).count runW.source.id =
      (if runW.source.is_active then 1 else 0) ∧
    (((runCycle envW dbW cycAB).2.1).map (fun lg => lg.source_id)).count runB.source.id =
      (if runB.source.is_active then 1 else 0) :=
  ⟨one_updatelog_per_active_source envW dbW cycAB (by decide) runW (by decide),
   one_updatelog_per_active_source envW dbW cycAB (by decide) runB (by decide)⟩

/-! ### C2: a failed feed fetch (corrected) -/

/-- C2 counterexample: a cycle whose first (active) source's fetch raises.
Contrary to the claim, that source's single UpdateLog row has status
`success` — not `error` — with an article count of zero; the subsequent
source is still processed. -/
theorem fetch_failure_error_status_cex :
    runFail.fetch = FetchResult.raise ∧ runFail.source.is_active = true ∧
    ((runCycle envW dbW cycFail).2.1).map
        (fun lg => (lg.source_id, lg.status, lg.articles_count)) =
      [(1, strSuccess, 0), (2, strSuccess, 1)] ∧
    strSuccess ≠ strError := by
  refine ⟨rfl, rfl, ?_, by decide⟩
  decide

/-- C2 amended: a source whose feed fetch throws or times out still yields
exactly one UpdateLog row with a zero article count, and every subsequent
source in the same cycle is still processed — but the row's status is
`success` (with the message reporting 0 processed, 0 new), not `error`,
because `fetch_rss_feed` swallows the exception and returns an empty list,
which `update_news` treats as a successfully processed empty feed. -/
theorem fetch_failure_one_zero_log (env : Env) (db : DB) (cyc : Cycle)
    (hids : (cyc.runs.map (fun r => r.source.id)).Nodup)
    (run : SourceRun) (hmem : run ∈ cyc.runs)
    (hact : run.source.is_active = true) (hf : run.fetch = .raise) :
    (((runCycle env db cyc).2.1).map (fun lg => lg.source_id)).count run.source.id = 1 ∧
    (∀ lg ∈ (runCycle env db cyc).2.1, lg.source_id = run.source.id →
      lg = ⟨run.source.id, strSuccess, successMsg 0 0, 0⟩) ∧
    ((runCycle env db cyc).2.1).length = (activeRuns cyc).length := by
  refine ⟨?_, ?_, ?_⟩
  · rw [logs_count_of_run env db cyc hids run hmem, if_pos hact]
  · intro lg hlg hid
    obtain ⟨r2, hr2, st2, hst2⟩ := runActive_log_origin env db.articles _ _ lg hlg
    have hr2' : r2 ∈ cyc.runs := List.mem_of_mem_filter hr2
    have hid2 : r2.source.id = run.source.id := by
      rw [← hid, hst2, processSource_sourceId]
    have : r2 = run := List.inj_on_of_nodup_map hids hr2' hmem hid2
    subst this
    rw [hst2, processSource_fetch_raise env db.articles st2 r2 hf]
  · exact runActive_logs_length env db.articles _ _

/-- Witness for C2's amended claim at the concrete failing cycle. -/
theorem fetch_failure_one_zero_log_witness :
    (((runCycle envW dbW cycFail).2.1).map (fun lg => lg.source_id)).count
        runFail.source.id = 1 ∧
    ((runCycle envW dbW cycFail).2.1).length = (activeRuns cycFail).length :=
  ⟨(fetch_failure_one_zero_log envW dbW cycFail (by decide) runFail (by decide) rfl rfl).1,
   (fetch_failure_one_zero_log envW dbW cycFail (by decide) runFail (by decide) rfl rfl).2.2⟩

/-! ### C6: image-URL resolution -/

/-- The code's guarded url normalization (skip anything already starting
with `http`) agrees with the claim's unguarded one, for every string. -/
theorem normalizeImageUrl_eq_claim (env : Env) (src : Source) (u : Str) :
    normalizeImageUrl env src (some u) = some (claimNormalize env src u) := by
  cases u with
  | nil => rfl
  | cons c cs =>
    by_cases h : litHttp.isPrefixOf (c :: cs) = true
    · have hc : c = 'h' := by
        rw [show litHttp = 'h' :: ("ttp".toList) from rfl] at h
        simp only [List.isPrefixOf, Bool.and_eq_true, beq_iff_eq] at h
        exact h.1.symm
      subst hc
      have hp : litProtoRel.isPrefixOf ('h' :: cs) = false := rfl
      have hr : litRootRel.isPrefixOf ('h' :: cs) = false := rfl
      simp [normalizeImageUrl, claimNormalize, h, hp, hr]
    · have hb : litHttp.isPrefixOf (c :: cs) = false := by
        cases hx : litHttp.isPrefixOf (c :: cs) with
        | true => exact absurd hx h
        | false => rfl
      simp only [normalizeImageUrl, claimNormalize, List.isEmpty_cons, hb, Bool.not_false,
        Bool.and_self, if_true]
      split_ifs <;> rfl

/-- C6: for every entry whose structured image urls are genuine (non-empty)
strings, the code's image resolution equals the claim's first-match-wins
priority chain — (a) media-content preferring an `image/`-typed item else the
first item, (b) media-thumbnail, (c) first `image/`-typed enclosure, (d)
first acceptable `<img src>` in content/summary — followed by the
post-resolution normalization of protocol-relative and root-relative urls;
and this is the image url carried by the normalized record. -/
theorem image_url_priority (env : Env) (src : Source) (e : Entry) (hg : goodUrls e) :
    resolveImage env src e = imageClaimChain env src e ∧
    (∀ d, normalizeEntry env src e = some d → d.image_url = resolveImage env src e) := by
  obtain ⟨hm, ht, hen⟩ := hg
  constructor
  · rw [resolveImage, imageClaimChain]
    cases hmc : e.media_content with
    | cons m0 rest =>
      have hm0 : m0.url ≠ [] := hm m0 (by rw [hmc]; exact List.mem_cons_self ..)
      cases hf : (m0 :: rest).find? mediaIsImage with
      | some m =>
        have hmem2 : m ∈ m0 :: rest := List.mem_of_find?_eq_some hf
        have hmu : m.url ≠ [] := hm m (by rw [hmc]; exact hmem2)
        have hfal : falsyStr (some m.url) = false := by
          simp [falsyStr, isEmpty_false_of_ne hmu]
        have h1 : imageAfterElif e = some m.url := by
          simp [imageAfterElif, hmc, hf, hfal]
        have h2 : imageScanStep env e (some m.url) = some m.url := by
          simp [imageScanStep, hfal]
        have h3 : rawImageClaim env e = some m.url := by
          simp [rawImageClaim, hmc, hf]
        rw [h1, h2, h3, normalizeImageUrl_eq_claim]
        rfl
      | none =>
        have hfal : falsyStr (some m0.url) = false := by
          simp [falsyStr, isEmpty_false_of_ne hm0]
        have h1 : imageAfterElif e = some m0.url := by
          simp [imageAfterElif, hmc, hf, falsyStr]
        have h2 : imageScanStep env e (some m0.url) = some m0.url := by
          simp [imageScanStep, hfal]
        have h3 : rawImageClaim env e = some m0.url := by
          simp [rawImageClaim, hmc, hf]
        rw [h1, h2, h3, normalizeImageUrl_eq_claim]
        rfl
    | nil =>
      cases hmt : e.media_thumbnail with
      | cons t0 ts =>
        have ht0 : t0.url ≠ [] := ht t0 (by rw [hmt]; exact List.mem_cons_self ..)
        have hfal : falsyStr (some t0.url) = false := by
          simp [falsyStr, isEmpty_false_of_ne ht0]
        have h1 : imageAfterElif e = some t0.url := by
          simp [imageAfterElif, hmc, hmt]
        have h2 : imageScanStep env e (some t0.url) = some t0.url := by
          simp [imageScanStep, hfal]
        have h3 : rawImageClaim env e = some t0.url := by
          simp [rawImageClaim, hmc, hmt]
        rw [h1, h2, h3, normalizeImageUrl_eq_claim]
        rfl
      | nil =>
        cases hfe : e.enclosures.find? enclosureIsImage with
        | some en =>
          have hmem2 : en ∈ e.enclosures := List.mem_of_find?_eq_some hfe
          have hh : en.href ≠ [] := hen en hmem2
          have hfal : falsyStr (some en.href) = false := by
            simp [falsyStr, isEmpty_false_of_ne hh]
          have h1 : imageAfterElif e = some en.href := by
            simp [imageAfterElif, hmc, hmt, hfe]
          have h2 : imageScanStep env e (some en.href) = some en.href := by
            simp [imageScanStep, hfal]
          have h3 : rawImageClaim env e = some en.href := by
            simp [rawImageClaim, hmc, hmt, hfe]
          rw [h1, h2, h3, normalizeImageUrl_eq_claim]
          rfl
        | none =>
          have h1 : imageAfterElif e = none := by
            simp [imageAfterElif, hmc, hmt, hfe]
          cases hs : scanImage env e with
          | some s =>
            have h2 : imageScanStep env e none = some s := by
              simp [imageScanStep, falsyStr, hs]
            have h3 : rawImageClaim env e = some s := by
              simp [rawImageClaim, hmc, hmt, hfe, hs]
            rw [h1, h2, h3, normalizeImageUrl_eq_claim]
            rfl
          | none =>
            have h2 : imageScanStep env e none = none := by
              simp [imageScanStep, falsyStr, hs]
            have h3 : rawImageClaim env e = none := by
              simp [rawImageClaim, hmc, hmt, hfe, hs]
            rw [h1, h2, h3]
            rfl
  · intro d hd
    obtain ⟨l, -, hdef⟩ := normalizeEntry_some hd
    subst hdef
    rfl

/-- Witness for C6: the spec's own example — a protocol-relative
media-content url `//cdn.example.com/a.jpg` resolves, through the chain and
normalization, to `https://cdn.example.com/a.jpg`. -/
theorem image_url_priority_witness :
    resolveImage envW srcW entryImg = imageClaimChain envW srcW entryImg ∧
    resolveImage envW srcW entryImg = some ("https://cdn.example.com/a.jpg".toList) :=
  ⟨(image_url_priority envW srcW entryImg (by decide)).1, by decide⟩

/-! ### Dedup machinery (used by C3) -/

theorem linksOf_append (a b : List Article) : linksOf (a ++ b) = linksOf a ++ linksOf b :=
  List.map_append _ _ _

theorem linkExists_eq_true_iff (arts : List Article) (l : Str) :
    linkExists arts l = true ↔ l ∈ linksOf arts := by
  rw [linkExists, List.any_eq_true]
  constructor
  · rintro ⟨a, ha, hb⟩
    exact List.mem_map.mpr ⟨a, ha, by simpa using hb⟩
  · intro h
    obtain ⟨a, ha, hl⟩ := List.mem_map.mp h
    exact ⟨a, ha, by simp [hl]⟩

theorem linkExists_false_iff (arts : List Article) (l : Str) :
    linkExists arts l = false ↔ l ∉ linksOf arts := by
  rw [← linkExists_eq_true_iff]
  cases linkExists arts l <;> simp

theorem linkExists_true_of_left {c : List Article} (st : List Article) {l : Str}
    (h : l ∈ linksOf c) : linkExists (c ++ st) l = true := by
  rw [linkExists_eq_true_iff, linksOf_append]
  exact List.mem_append_left _ h

/-- The staged list only ever grows. -/
theorem stageLoop_staged_extend (env : Env) (c : List Article) :
    ∀ (ds : List ArticleData) (stop : Option Nat) (st : List Article) (n : Nat),
      ∃ t, (stageLoop env c ds stop st n).1 = st ++ t := by
  intro ds
  induction ds with
  | nil => intro stop st n; exact ⟨[], by simp [stageLoop]⟩
  | cons d ds ih =>
    intro stop st n
    simp only [stageLoop]
    by_cases h0 : stop = some 0
    · rw [if_pos h0]
      exact ⟨[], by simp⟩
    · rw [if_neg h0]
      by_cases hex : linkExists (c ++ st) d.link = true
      · rw [if_pos hex]
        exact ih _ _ _
      · rw [if_neg hex]
        obtain ⟨t, htt⟩ := ih (decStop stop) (st ++ [mkArticle d (enrich env d.link)]) (n + 1)
        refine ⟨mkArticle d (enrich env d.link) :: t, ?_⟩
        rw [htt, List.append_assoc]
        rfl

/-- Every article staged by the loop has a link absent from the committed
rows. -/
theorem stageLoop_fresh (env : Env) (c : List Article) :
    ∀ (ds : List ArticleData) (stop : Option Nat) (st : List Article) (n : Nat)
      (a : Article), a ∈ (stageLoop env c ds stop st n).1 →
      a ∈ st ∨ a.link ∉ linksOf c := by
  intro ds
  induction ds with
  | nil =>
    intro stop st n a h
    exact Or.inl h
  | cons d ds ih =>
    intro stop st n a h
    simp only [stageLoop] at h
    by_cases h0 : stop = some 0
    · rw [if_pos h0] at h
      exact Or.inl h
    · rw [if_neg h0] at h
      by_cases hex : linkExists (c ++ st) d.link = true
      · rw [if_pos hex] at h
        exact ih _ _ _ a h
      · rw [if_neg hex] at h
        rcases ih _ _ _ a h with hmem | hfr
        · rcases List.mem_append.mp hmem with h1 | h1
          · exact Or.inl h1
          · have ha : a = mkArticle d (enrich env d.link) := by simpa using h1
            subst ha
            right
            have hfl : linkExists (c ++ st) d.link = false := by
              cases hx : linkExists (c ++ st) d.link with
              | true => exact absurd hx hex
              | false => rfl
            have hnotin := (linkExists_false_iff _ _).mp hfl
            intro hin
            apply hnotin
            rw [linksOf_append]
            exact List.mem_append_left _ hin
        · exact Or.inr hfr

/-- The loop preserves global uniqueness of links. -/
theorem stageLoop_nodup (env : Env) (c : List Article) :
    ∀ (ds : List ArticleData) (stop : Option Nat) (st : List Article) (n : Nat),
      (linksOf (c ++ st)).Nodup →
      (linksOf (c ++ (stageLoop env c ds stop st n).1)).Nodup := by
  intro ds
  induction ds with
  | nil => intro stop st n h; exact h
  | cons d ds ih =>
    intro stop st n hnd
    simp only [stageLoop]
    by_cases h0 : stop = some 0
    · rw [if_pos h0]
      exact hnd
    · rw [if_neg h0]
      by_cases hex : linkExists (c ++ st) d.link = true
      · rw [if_pos hex]
        exact ih _ _ _ hnd
      · rw [if_neg hex]
        have hfl : linkExists (c ++ st) d.link = false := by
          cases hx : linkExists (c ++ st) d.link with
          | true => exact absurd hx hex
          | false => rfl
        have hnotin := (linkExists_false_iff _ _).mp hfl
        have hnd2 : (linksOf ((c ++ st) ++ [mkArticle d (enrich env d.link)])).Nodup := by
          rw [linksOf_append]
          refine List.Nodup.append hnd (List.nodup_singleton _) ?_
          intro x hx hx2
          have hxz : x = d.link := by simpa [linksOf, mkArticle] using hx2
          subst hxz
          exact hnotin hx
        rw [List.append_assoc] at hnd2
        exact ih _ _ _ hnd2

theorem reachedDatas_cons (d : ArticleData) (ds : List ArticleData) (stop : Option Nat)
    (h : stop ≠ some 0) :
    reachedDatas (d :: ds) stop = d :: reachedDatas ds (decStop stop) := by
  cases stop with
  | none => rfl
  | some k =>
    cases k with
    | zero => exact absurd rfl h
    | succ k => rfl

/-- After the loop, every reached entry's link is in the session's view. -/
theorem stageLoop_covers (env : Env) (c : List Article) :
    ∀ (ds : List ArticleData) (stop : Option Nat) (st : List Article) (n : Nat),
      ∀ d ∈ reachedDatas ds stop,
        d.link ∈ linksOf (c ++ (stageLoop env c ds stop st n).1) := by
  intro ds
  induction ds with
  | nil =>
    intro stop st n d hd
    rw [show reachedDatas [] stop = [] from by cases stop <;> simp [reachedDatas]] at hd
    cases hd
  | cons d0 ds ih =>
    intro stop st n d hd
    by_cases h0 : stop = some 0
    · subst h0
      cases hd
    · rw [reachedDatas_cons _ _ _ h0] at hd
      simp only [stageLoop]
      rw [if_neg h0]
      by_cases hex : linkExists (c ++ st) d0.link = true
      · rw [if_pos hex]
        rcases List.mem_cons.mp hd with hd1 | hd1
        · subst hd1
          have hin : d.link ∈ linksOf (c ++ st) := by
            rw [← linkExists_eq_true_iff]
            exact hex
          obtain ⟨t, htt⟩ := stageLoop_staged_extend env c ds (decStop stop) st n
          rw [htt, ← List.append_assoc, linksOf_append]
          exact List.mem_append_left _ hin
        · exact ih _ _ _ d hd1
      · rw [if_neg hex]
        rcases List.mem_cons.mp hd with hd1 | hd1
        · subst hd1
          obtain ⟨t, htt⟩ := stageLoop_staged_extend env c ds (decStop stop)
            (st ++ [mkArticle d (enrich env d.link)]) (n + 1)
          rw [htt, ← List.append_assoc, linksOf_append]
          apply List.mem_append_left
          apply List.mem_map.mpr
          exact ⟨mkArticle d (enrich env d.link), by simp, rfl⟩
        · exact ih _ _ _ d hd1

/-- When every reached entry's link is already committed, the loop stages
nothing and counts nothing. -/
theorem stageLoop_no_new (env : Env) (c : List Article) :
    ∀ (ds : List ArticleData) (stop : Option Nat) (st : List Article) (n : Nat),
      (∀ d ∈ reachedDatas ds stop, d.link ∈ linksOf c) →
      (stageLoop env c ds stop st n).1 = st ∧ (stageLoop env c ds stop st n).2.1 = n := by
  intro ds
  induction ds with
  | nil => intro stop st n _; exact ⟨rfl, rfl⟩
  | cons d0 ds ih =>
    intro stop st n hcov
    simp only [stageLoop]
    by_cases h0 : stop = some 0
    · rw [if_pos h0]
      exact ⟨rfl, rfl⟩
    · rw [if_neg h0]
      have hd0 : d0.link ∈ linksOf c := by
        apply hcov
        rw [reachedDatas_cons _ _ _ h0]
        exact List.mem_cons_self ..
      rw [if_pos (linkExists_true_of_left st hd0)]
      apply ih
      intro d hd
      apply hcov
      rw [reachedDatas_cons _ _ _ h0]
      exact List.mem_cons_of_mem _ hd

theorem processSource_fst (env : Env) (c st : List Article) (run : SourceRun) :
    (processSource env c st run).1 =
      (stageLoop env c (fetch_rss_feed env run.source run.fetch) run.procFailAt st 0).1 := by
  simp only [processSource]
  split <;> rfl

theorem processSource_contrib_zero (env : Env) (c st : List Article) (run : SourceRun)
    (h : (stageLoop env c (fetch_rss_feed env run.source run.fetch) run.procFailAt st 0).2.1
      = 0) : (processSource env c st run).2.2 = 0 := by
  simp only [processSource]
  split
  · exact h
  · rfl

theorem runActive_staged_extend (env : Env) (c : List Article) :
    ∀ (rs : List SourceRun) (st : List Article),
      ∃ t, (runActive env c rs st).1 = st ++ t := by
  intro rs
  induction rs with
  | nil => intro st; exact ⟨[], by simp [runActive]⟩
  | cons r rs ih =>
    intro st
    obtain ⟨t1, h1⟩ := stageLoop_staged_extend env c
      (fetch_rss_feed env r.source r.fetch) r.procFailAt st 0
    obtain ⟨t2, h2⟩ := ih ((processSource env c st r).1)
    refine ⟨t1 ++ t2, ?_⟩
    show (runActive env c rs (processSource env c st r).1).1 = st ++ (t1 ++ t2)
    rw [h2, processSource_fst, h1, List.append_assoc]

theorem runActive_fresh (env : Env) (c : List Article) :
    ∀ (rs : List SourceRun) (st : List Article) (a : Article),
      a ∈ (runActive env c rs st).1 → a ∈ st ∨ a.link ∉ linksOf c := by
  intro rs
  induction rs with
  | nil => intro st a h; exact Or.inl h
  | cons r rs ih =>
    intro st a h
    have h' : a ∈ (runActive env c rs (processSource env c st r).1).1 := h
    rcases ih _ a h' with h1 | h1
    · rw [processSource_fst] at h1
      exact stageLoop_fresh env c _ _ _ _ a h1
    · exact Or.inr h1

theorem runActive_nodup (env : Env) (c : List Article) :
    ∀ (rs : List SourceRun) (st : List Article),
      (linksOf (c ++ st)).Nodup → (linksOf (c ++ (runActive env c rs st).1)).Nodup := by
  intro rs
  induction rs with
  | nil => intro st h; exact h
  | cons r rs ih =>
    intro st h
    have h2 : (linksOf (c ++ (processSource env c st r).1)).Nodup := by
      rw [processSource_fst]
      exact stageLoop_nodup env c _ _ _ _ h
    exact ih _ h2

theorem runActive_covers (env : Env) (c : List Article) :
    ∀ (rs : List SourceRun) (st : List Article),
      ∀ r ∈ rs, ∀ d ∈ reachedDatas (fetch_rss_feed env r.source r.fetch) r.procFailAt,
        d.link ∈ linksOf (c ++ (runActive env c rs st).1) := by
  intro rs
  induction rs with
  | nil => intro st r hr; cases hr
  | cons r0 rs ih =>
    intro st r hr d hd
    rcases List.mem_cons.mp hr with h1 | h1
    · subst h1
      have hin : d.link ∈ linksOf (c ++ (processSource env c st r).1) := by
        rw [processSource_fst]
        exact stageLoop_covers env c _ _ _ _ d hd
      obtain ⟨t, htt⟩ := runActive_staged_extend env c rs ((processSource env c st r).1)
      show d.link ∈ linksOf (c ++ (runActive env c rs (processSource env c st r).1).1)
      rw [htt, ← List.append_assoc, linksOf_append]
      exact List.mem_append_left _ hin
    · exact ih ((processSource env c st r0).1) r h1 d hd

theorem runActive_no_new (env : Env) (c : List Article) :
    ∀ (rs : List SourceRun) (st : List Article),
      (∀ r ∈ rs, ∀ d ∈ reachedDatas (fetch_rss_feed env r.source r.fetch) r.procFailAt,
        d.link ∈ linksOf c) →
      (runActive env c rs st).1 = st ∧ (runActive env c rs st).2.2 = 0 := by
  intro rs
  induction rs with
  | nil => intro st _; exact ⟨rfl, rfl⟩
  | cons r rs ih =>
    intro st h
    have hst := stageLoop_no_new env c
      (fetch_rss_feed env r.source r.fetch) r.procFailAt st 0
      (h r (List.mem_cons_self ..))
    have hp1 : (processSource env c st r).1 = st := by
      rw [processSource_fst]
      exact hst.1
    have hp2 : (processSource env c st r).2.2 = 0 :=
      processSource_contrib_zero env c st r hst.2
    have hrest := ih ((processSource env c st r).1)
      (fun r2 hr2 => h r2 (List.mem_cons_of_mem _ hr2))
    constructor
    · show (runActive env c rs (processSource env c st r).1).1 = st
      rw [hrest.1, hp1]
    · show (processSource env c st r).2.2 +
        (runActive env c rs (processSource env c st r).1).2.2 = 0
      rw [hp2, hrest.2]

/-! ### C3: idempotent ingestion on the article link -/

/-- C3: ingestion is idempotent on the article link.  Starting from a
database with globally-unique links, a committed cycle appends only articles
whose links were absent before (existing rows are never re-inserted or
modified — they remain an unchanged prefix), link uniqueness is preserved
(so at most one Article row per link ever exists), and re-running the same
cycle over the unchanged feeds inserts zero new articles and leaves the
article table unchanged. -/
theorem ingestion_idempotent (env : Env) (db : DB) (cyc : Cycle)
    (hnd : (linksOf db.articles).Nodup) (hc : cyc.commitOk = true) :
    (∃ t, (update_news env db cyc).1.articles = db.articles ++ t ∧
      ∀ a ∈ t, a.link ∉ linksOf db.articles) ∧
    (linksOf (update_news env db cyc).1.articles).Nodup ∧
    (update_news env (update_news env db cyc).1 cyc).2 = 0 ∧
    (update_news env (update_news env db cyc).1 cyc).1.articles =
      (update_news env db cyc).1.articles := by
  have hart : (update_news env db cyc).1.articles =
      db.articles ++ (runCycle env db cyc).1 := by
    simp [update_news, hc]
  have hfresh : ∀ a ∈ (runCycle env db cyc).1, a.link ∉ linksOf db.articles := by
    intro a ha
    rcases runActive_fresh env db.articles _ _ a ha with h1 | h1
    · cases h1
    · exact h1
  have hcov2 : ∀ r ∈ activeRuns cyc,
      ∀ d ∈ reachedDatas (fetch_rss_feed env r.source r.fetch) r.procFailAt,
        d.link ∈ linksOf (update_news env db cyc).1.articles := by
    intro r hr d hd
    rw [hart]
    exact runActive_covers env db.articles (activeRuns cyc) [] r hr d hd
  have hnonew := runActive_no_new env ((update_news env db cyc).1.articles)
    (activeRuns cyc) [] hcov2
  refine ⟨⟨(runCycle env db cyc).1, hart, hfresh⟩, ?_, ?_, ?_⟩
  · rw [hart]
    exact runActive_nodup env db.articles (activeRuns cyc) [] (by simpa using hnd)
  · have h2 : (update_news env (update_news env db cyc).1 cyc).2 =
        (runCycle env (update_news env db cyc).1 cyc).2.2 := by
      simp only [update_news]
      split <;> rfl
    rw [h2]
    exact hnonew.2
  · have h3 : (update_news env (update_news env db cyc).1 cyc).1.articles =
        (update_news env db cyc).1.articles ++
          (runCycle env (update_news env db cyc).1 cyc).1 := by
      simp [update_news, hc]
    rw [h3, show (runCycle env (update_news env db cyc).1 cyc).1 = [] from hnonew.1,
      List.append_nil]

/-- Witness for C3: the concrete one-source cycle commits once; re-running it
inserts zero new articles, and links stay unique. -/
theorem ingestion_idempotent_witness :
    (update_news envW ((update_news envW dbW cycW).1) cycW).2 = 0 ∧
    (linksOf (update_news envW dbW cycW).1.articles).Nodup :=
  ⟨(ingestion_idempotent envW dbW cycW (by decide) rfl).2.2.1,
   (ingestion_idempotent envW dbW cycW (by decide) rfl).2.1⟩

/-! ### C10: the fixed 7-day read window -/

theorem mem_insertDesc {a x : Article} :
    ∀ {l : List Article}, a ∈ insertDesc x l → a = x ∨ a ∈ l := by
  intro l
  induction l with
  | nil =>
    intro h
    simp only [insertDesc] at h
    exact Or.inl (by simpa using h)
  | cons b bs ih =>
    intro h
    simp only [insertDesc] at h
    by_cases hc : publishedDesc x b = true
    · rw [if_pos hc] at h
      rcases List.mem_cons.mp h with h1 | h1
      · exact Or.inl h1
      · exact Or.inr h1
    · rw [if_neg hc] at h
      rcases List.mem_cons.mp h with h1 | h1
      · exact Or.inr (h1 ▸ List.mem_cons_self ..)
      · rcases ih h1 with h2 | h2
        · exact Or.inl h2
        · exact Or.inr (List.mem_cons_of_mem _ h2)

theorem mem_sortByPublishedDesc {a : Article} :
    ∀ {l : List Article}, a ∈ sortByPublishedDesc l → a ∈ l := by
  intro l
  induction l with
  | nil => intro h; exact h
  | cons b bs ih =>
    intro h
    have h2 : a ∈ insertDesc b (sortByPublishedDesc bs) := h
    rcases mem_insertDesc h2 with h1 | h1
    · exact h1 ▸ List.mem_cons_self ..
    · exact List.mem_cons_of_mem _ (ih h1)

theorem mem_paginate {α : Type} {page per : Nat} {l : List α} {a : α}
    (h : a ∈ paginate page per l) : a ∈ l :=
  List.mem_of_mem_drop (List.mem_of_mem_take h)

/-- C10: every article listed by the home page, the category page,
`/api/news` and `/api/news/<category>` has a published timestamp no older
than seven days before the query time, whatever the page, per-page, source or
category parameters are (the window is not configurable through any exposed
parameter), and the `/api/stats` counts count exactly the active articles
inside that same window. -/
theorem seven_day_window_only (db : DB) (now : Naive) :
    (∀ page srcFilter a, a ∈ index_articles db now page srcFilter →
      Naive.le (subDays7 now) a.published_at = true) ∧
    (∀ catId page srcFilter a, a ∈ category_articles db now catId page srcFilter →
      Naive.le (subDays7 now) a.published_at = true) ∧
    (∀ page per a, a ∈ api_news_articles db now page per →
      Naive.le (subDays7 now) a.published_at = true) ∧
    (∀ catId page per a, a ∈ api_category_articles db now catId page per →
      Naive.le (subDays7 now) a.published_at = true) ∧
    (api_stats_total db now = (db.articles.filter
      (fun a => Naive.le (subDays7 now) a.published_at && a.is_active)).length) ∧
    (∀ catId, api_stats_category_count db now catId = (db.articles.filter
      (fun a => Naive.le (subDays7 now) a.published_at &&
        (a.category_id == catId && a.is_active))).length) := by
  refine ⟨?_, ?_, ?_, ?_, ?_, ?_⟩
  · intro page srcFilter a h
    have h1 := mem_sortByPublishedDesc (mem_paginate h)
    have h2 : a ∈ (db.articles.filter (fun a => a.is_active)).filter
        (fun a => Naive.le (subDays7 now) a.published_at) := by
      cases srcFilter with
      | none => exact h1
      | some s => exact List.mem_of_mem_filter h1
    exact (List.mem_filter.mp h2).2
  · intro catId page srcFilter a h
    have h1 := mem_sortByPublishedDesc (mem_paginate h)
    have h2 : a ∈ (db.articles.filter
        (fun a => a.category_id == catId && a.is_active)).filter
        (fun a => Naive.le (subDays7 now) a.published_at) := by
      cases srcFilter with
      | none => exact h1
      | some s => exact List.mem_of_mem_filter h1
    exact (List.mem_filter.mp h2).2
  · intro page per a h
    have h1 := mem_sortByPublishedDesc (mem_paginate h)
    exact (List.mem_filter.mp h1).2
  · intro catId page per a h
    have h1 := mem_sortByPublishedDesc (mem_paginate h)
    exact (List.mem_filter.mp h1).2
  · simp only [api_stats_total, List.filter_filter]
  · intro catId
    simp only [api_stats_category_count, List.filter_filter]

/-- Witness for C10 at a concrete database and query time: the one stored
recent article is listed and satisfies the window bound. -/
theorem seven_day_window_only_witness :
    Naive.le (subDays7 envW.now) artW.published_at = true :=
  (seven_day_window_only dbA envW.now).1 1 none artW (by decide)

end RssLent
